import Mathlib

/-
Verification of the scheduling-runtime specification of the cortex-m-rtic
example repository.  The visible sources contain only the example
application (examples/spawn.rs); the runtime it drives (ready queues,
spawn API, priority dispatcher, ceiling locks, monotonic clock) is
modelled from the specification, and the example program itself is
embedded directly from its source.
-/

/-- Modelled from the spec: a Task Ready Queue (section 4.2), a bounded
FIFO holding pending invocations; the runtime implementation is not part
of the visible sources.  Capacity is fixed per task; the front of the
queue is the head of the entry list. -/
structure ReadyQueue (α : Type) where
  capacity : Nat
  entries : List α
deriving DecidableEq

/-- Modelled from the spec: the spawn error taxonomy (sections 4.6 and 7);
QueueFull is the only recoverable runtime error. -/
inductive SpawnError where
  | QueueFull
deriving DecidableEq

/-- Modelled from the spec: enqueue appends an invocation and fails
explicitly with QueueFull when the queue is at capacity (section 4.2). -/
def ReadyQueue.enqueue {α : Type} (q : ReadyQueue α) (x : α) :
    Except SpawnError (ReadyQueue α) :=
  if q.entries.length < q.capacity then
    Except.ok { q with entries := q.entries ++ [x] }
  else
    Except.error SpawnError.QueueFull

/-- Modelled from the spec: dequeue pops the next invocation in FIFO
order (section 4.2). -/
def ReadyQueue.dequeue {α : Type} (q : ReadyQueue α) :
    Option (α × ReadyQueue α) :=
  match q.entries with
  | [] => none
  | x :: rest => some (x, { q with entries := rest })

/-- An empty ready queue of a given capacity. -/
def ReadyQueue.empty {α : Type} (cap : Nat) : ReadyQueue α :=
  ⟨cap, []⟩

/-- Repeatedly dequeue, collecting the popped invocations, with explicit
fuel. -/
def drainFuel {α : Type} : Nat → ReadyQueue α → List α
  | 0, _ => []
  | n + 1, q =>
    match q.dequeue with
    | none => []
    | some (x, q') => x :: drainFuel n q'

/-- The full dispatch of a queue: dequeue until empty, in order. -/
def drain {α : Type} (q : ReadyQueue α) : List α :=
  drainFuel q.entries.length q

theorem drainFuel_eq_entries {α : Type} :
    ∀ (n : Nat) (q : ReadyQueue α), q.entries.length ≤ n →
      drainFuel n q = q.entries := by
  intro n
  induction n with
  | zero =>
    intro q hq
    cases hq' : q.entries with
    | nil => simp [drainFuel, hq']
    | cons x rest => rw [hq'] at hq; simp at hq
  | succ m ih =>
    intro q hq
    cases hq' : q.entries with
    | nil => simp [drainFuel, ReadyQueue.dequeue, hq']
    | cons x rest =>
      have hd : q.dequeue = some (x, { q with entries := rest }) := by
        simp [ReadyQueue.dequeue, hq']
      have hlen : rest.length ≤ m := by
        rw [hq'] at hq; simp at hq; omega
      have hih := ih { q with entries := rest } (by simpa using hlen)
      simp [drainFuel, hd, hq', hih]

theorem drain_eq_entries {α : Type} (q : ReadyQueue α) :
    drain q = q.entries :=
  drainFuel_eq_entries _ q (Nat.le_refl _)

/-- Modelled from the spec: the static task system, one ready queue per
task identity (sections 4.1 and 4.2). -/
structure TaskSystem (ι α : Type) where
  queues : ι → ReadyQueue α

/-- Modelled from the spec: the Spawn API (section 4.6) composes the
dispatch-table lookup with an enqueue into the target task's ready
queue; the error is returned synchronously to the caller. -/
def spawn {ι α : Type} [DecidableEq ι] (s : TaskSystem ι α) (t : ι) (x : α) :
    Except SpawnError (TaskSystem ι α) :=
  match (s.queues t).enqueue x with
  | Except.ok q => Except.ok ⟨fun u => if u = t then q else s.queues u⟩
  | Except.error e => Except.error e

/-- Claim C1: spawning a task with given arguments and then dispatching
yields exactly one new invocation of that task, with exactly those
arguments preserved bit-for-bit (the dispatched sequence of the target
task gains precisely the spawned argument tuple at its end, and every
other task's queue is untouched). -/
theorem spawn_dispatch_roundtrip {ι α : Type} [DecidableEq ι]
    (s : TaskSystem ι α) (t : ι) (x : α) (s' : TaskSystem ι α) (u : ι)
    (h : spawn s t x = Except.ok s') (hu : u ≠ t) :
    drain (s'.queues t) = drain (s.queues t) ++ [x] ∧
    s'.queues u = s.queues u := by
  unfold spawn at h
  cases henq : (s.queues t).enqueue x with
  | error e => rw [henq] at h; exact absurd h (by simp)
  | ok q =>
    rw [henq] at h
    have hs' : s' = ⟨fun v => if v = t then q else s.queues v⟩ := by
      injection h with h'; exact h'.symm
    unfold ReadyQueue.enqueue at henq
    by_cases hlen : (s.queues t).entries.length < (s.queues t).capacity
    · rw [if_pos hlen] at henq
      have hq : q = { s.queues t with entries := (s.queues t).entries ++ [x] } := by
        injection henq with h'; exact h'.symm
      constructor
      · rw [hs', drain_eq_entries, drain_eq_entries]
        simp [hq]
      · rw [hs']
        simp [hu]
    · rw [if_neg hlen] at henq
      exact absurd henq (by simp)

/-- A concrete one-task system with an empty queue of capacity one,
matching the example's foo task (argument tuple of an i32 and a u32). -/
def exampleSys : TaskSystem Nat (Int × Nat) :=
  ⟨fun _ => ReadyQueue.empty 1⟩

/-- The system after spawning foo with arguments one and two. -/
def exampleSpawned : TaskSystem Nat (Int × Nat) :=
  ⟨fun u => if u = 0 then ⟨1, [((1 : Int), (2 : Nat))]⟩ else ReadyQueue.empty 1⟩

/-- Witness for C1 at the example's concrete spawn of foo with
arguments one and two. -/
theorem spawn_dispatch_roundtrip_witness :
    drain (exampleSpawned.queues 0) = drain (exampleSys.queues 0) ++ [((1 : Int), (2 : Nat))] ∧
    exampleSpawned.queues 1 = exampleSys.queues 1 :=
  spawn_dispatch_roundtrip exampleSys 0 ((1 : Int), (2 : Nat)) exampleSpawned 1
    rfl (by decide)

/-- Claim C5: spawn returns a typed result whose error type includes
QueueFull; when the target task's ready queue is full, spawn fails
synchronously with QueueFull instead of silently dropping the
invocation or blocking (no successor state is produced). -/
theorem spawn_queue_full {ι α : Type} [DecidableEq ι]
    (s : TaskSystem ι α) (t : ι) (x : α)
    (h : (s.queues t).capacity ≤ (s.queues t).entries.length) :
    spawn s t x = Except.error SpawnError.QueueFull := by
  unfold spawn ReadyQueue.enqueue
  rw [if_neg (by omega)]

/-- A one-task system whose single queue is already at capacity. -/
def fullSys : TaskSystem Nat Nat :=
  ⟨fun _ => ⟨1, [7]⟩⟩

/-- Witness for C5: spawning into the full queue returns QueueFull. -/
theorem spawn_queue_full_witness :
    spawn fullSys 0 9 = Except.error SpawnError.QueueFull :=
  spawn_queue_full fullSys 0 9 (by decide)

/-- Modelled from the spec: a caller issuing a sequence of spawn
attempts against one ready queue, recording each synchronous result;
a failed attempt leaves the queue unchanged (section 4.2 overflow
policy). -/
def spawnResults {α : Type} (q : ReadyQueue α) :
    List α → ReadyQueue α × List (Except SpawnError Unit)
  | [] => (q, [])
  | x :: xs =>
    match q.enqueue x with
    | Except.ok q' =>
      let p := spawnResults q' xs
      (p.1, Except.ok () :: p.2)
    | Except.error e =>
      let p := spawnResults q xs
      (p.1, Except.error e :: p.2)

theorem spawnResults_capacity {α : Type} :
    ∀ (xs : List α) (q : ReadyQueue α),
      (spawnResults q xs).1.capacity = q.capacity := by
  intro xs
  induction xs with
  | nil => intro q; simp [spawnResults]
  | cons x xs ih =>
    intro q
    by_cases hlen : q.entries.length < q.capacity
    · have henq : q.enqueue x =
          Except.ok { q with entries := q.entries ++ [x] } := by
        simp [ReadyQueue.enqueue, hlen]
      simp [spawnResults, henq, ih]
    · have henq : q.enqueue x = Except.error SpawnError.QueueFull := by
        simp [ReadyQueue.enqueue, hlen]
      simp [spawnResults, henq, ih]

theorem spawnResults_entries {α : Type} :
    ∀ (xs : List α) (q : ReadyQueue α),
      (spawnResults q xs).1.entries =
        q.entries ++ xs.take (q.capacity - q.entries.length) := by
  intro xs
  induction xs with
  | nil => intro q; simp [spawnResults]
  | cons x xs ih =>
    intro q
    by_cases hlen : q.entries.length < q.capacity
    · have henq : q.enqueue x =
          Except.ok { q with entries := q.entries ++ [x] } := by
        simp [ReadyQueue.enqueue, hlen]
      have heq := ih { q with entries := q.entries ++ [x] }
      simp only [spawnResults, henq]
      simp only at heq
      rw [heq]
      have hc : q.capacity - q.entries.length =
          (q.capacity - (q.entries.length + 1)) + 1 := by omega
      simp only [List.length_append, List.length_cons, List.length_nil]
      rw [hc, List.take_succ_cons, List.append_assoc]
      simp
    · have henq : q.enqueue x = Except.error SpawnError.QueueFull := by
        simp [ReadyQueue.enqueue, hlen]
      have heq := ih q
      simp only [spawnResults, henq]
      rw [heq]
      have hc : q.capacity - q.entries.length = 0 := by omega
      rw [hc]
      simp

theorem spawnResults_results {α : Type} :
    ∀ (xs : List α) (q : ReadyQueue α),
      (spawnResults q xs).2 =
        List.replicate (min xs.length (q.capacity - q.entries.length))
          (Except.ok ()) ++
        List.replicate (xs.length - (q.capacity - q.entries.length))
          (Except.error SpawnError.QueueFull) := by
  intro xs
  induction xs with
  | nil => intro q; simp [spawnResults]
  | cons x xs ih =>
    intro q
    by_cases hlen : q.entries.length < q.capacity
    · have henq : q.enqueue x =
          Except.ok { q with entries := q.entries ++ [x] } := by
        simp [ReadyQueue.enqueue, hlen]
      have heq := ih { q with entries := q.entries ++ [x] }
      simp only [spawnResults, henq]
      simp only [List.length_append, List.length_cons, List.length_nil] at heq
      rw [heq]
      have h1 : min (x :: xs).length (q.capacity - q.entries.length) =
          (min xs.length (q.capacity - (q.entries.length + 0 + 1))) + 1 := by
        simp only [List.length_cons]
        omega
      have h2 : (x :: xs).length - (q.capacity - q.entries.length) =
          xs.length - (q.capacity - (q.entries.length + 0 + 1)) := by
        simp only [List.length_cons]
        omega
      rw [h1, h2, List.replicate_succ]
      simp
    · have henq : q.enqueue x = Except.error SpawnError.QueueFull := by
        simp [ReadyQueue.enqueue, hlen]
      have heq := ih q
      simp only [spawnResults, henq]
      rw [heq]
      have hc : q.capacity - q.entries.length = 0 := by omega
      rw [hc]
      simp [List.replicate_succ]

/-- Checks that after one dispatch from the queue a further spawn
attempt succeeds: dequeue once, then enqueue. -/
def freedSlotAccepts {α : Type} (q : ReadyQueue α) (z : α) : Bool :=
  match q.dequeue with
  | none => false
  | some (_, q') =>
    match q'.enqueue z with
    | Except.ok _ => true
    | Except.error _ => false

/-- Claim C6: for a task queue of capacity N, the first N spawn attempts
succeed and every further attempt from the N+1-st onward returns
QueueFull, until dispatch frees a slot, after which a spawn succeeds
again. -/
theorem queue_full_until_dispatch {α : Type} (cap : Nat) (xs : List α)
    (z : α) (hcap : 1 ≤ cap) (hlen : cap ≤ xs.length) :
    (spawnResults (ReadyQueue.empty cap) xs).2 =
      List.replicate cap (Except.ok ()) ++
        List.replicate (xs.length - cap) (Except.error SpawnError.QueueFull) ∧
    freedSlotAccepts (spawnResults (ReadyQueue.empty cap) xs).1 z = true := by
  have hres := spawnResults_results xs (ReadyQueue.empty (α := α) cap)
  have hent := spawnResults_entries xs (ReadyQueue.empty (α := α) cap)
  have hcapq := spawnResults_capacity xs (ReadyQueue.empty (α := α) cap)
  have hemc : (ReadyQueue.empty (α := α) cap).capacity = cap := rfl
  have heme : (ReadyQueue.empty (α := α) cap).entries = ([] : List α) := rfl
  rw [hemc, heme] at hres
  rw [hemc, heme] at hent
  rw [hemc] at hcapq
  simp only [List.length_nil, Nat.sub_zero, List.nil_append] at hres hent
  constructor
  · rw [hres]
    have hmin : min xs.length cap = cap := by omega
    rw [hmin]
  · cases hx : xs with
    | nil => rw [hx] at hlen; simp at hlen; omega
    | cons w xs' =>
      subst hx
      have htake : (w :: xs').take cap = w :: xs'.take (cap - 1) := by
        have hc1 : cap = (cap - 1) + 1 := by omega
        nth_rewrite 1 [hc1]
        rw [List.take_succ_cons]
      rw [htake] at hent
      have hfinal : (spawnResults (ReadyQueue.empty (α := α) cap) (w :: xs')).1 =
          ⟨cap, w :: xs'.take (cap - 1)⟩ := by
        cases hq3 : (spawnResults (ReadyQueue.empty (α := α) cap) (w :: xs')).1 with
        | mk c e =>
          rw [hq3] at hcapq hent
          simp only at hcapq hent
          rw [ReadyQueue.mk.injEq]
          exact ⟨hcapq, hent⟩
      rw [hfinal]
      have hdq : (⟨cap, w :: xs'.take (cap - 1)⟩ : ReadyQueue α).dequeue =
          some (w, ⟨cap, xs'.take (cap - 1)⟩) := by
        simp [ReadyQueue.dequeue]
      have hlen2 : (xs'.take (cap - 1)).length < cap := by
        have := List.length_take_le (cap - 1) xs'
        omega
      have henq : (⟨cap, xs'.take (cap - 1)⟩ : ReadyQueue α).enqueue z =
          Except.ok ⟨cap, xs'.take (cap - 1) ++ [z]⟩ := by
        unfold ReadyQueue.enqueue
        rw [if_pos hlen2]
      simp [freedSlotAccepts, hdq, henq]

/-- Witness for C6 with capacity one and three spawn attempts. -/
theorem queue_full_until_dispatch_witness :
    (spawnResults (ReadyQueue.empty 1) [10, 20, 30]).2 =
      List.replicate 1 (Except.ok ()) ++
        List.replicate 2 (Except.error SpawnError.QueueFull) ∧
    freedSlotAccepts (spawnResults (ReadyQueue.empty 1) [10, 20, 30]).1 7 = true :=
  queue_full_until_dispatch 1 [10, 20, 30] 7 (by decide) (by decide)

/-- Claim C7: dispatching drains a priority level's queue in FIFO order
with respect to the order in which enqueue appended the invocations:
after any sequence of spawn attempts on an initially empty queue, the
dequeued sequence is exactly the successfully appended invocations in
their original order. -/
theorem dequeue_fifo_order {α : Type} (cap : Nat) (xs : List α) :
    drain (spawnResults (ReadyQueue.empty cap) xs).1 = xs.take cap := by
  rw [drain_eq_entries, spawnResults_entries]
  simp [ReadyQueue.empty]

/-- The state of the example application of examples-spawn.rs: the ready
queue of the software task foo (arguments are an i32 and a u32), the
sequence of executed foo invocations (the hprintln log), whether
debug-exit was reached, and whether any unwrap panicked.  The queue
capacity is one, the framework default for a task declared without an
explicit capacity. -/
structure AppState where
  fooQueue : ReadyQueue (Int × Nat)
  log : List (Int × Nat)
  exited : Bool
  panicked : Bool
deriving DecidableEq

/-- The body of the task foo from examples-spawn.rs: print the
arguments, exit with success when x equals two, otherwise spawn foo
again with arguments two and three, unwrapping the result. -/
def fooBody (s : AppState) (x : Int) (y : Nat) : AppState :=
  let s1 : AppState := { s with log := s.log ++ [(x, y)] }
  if x = 2 then
    { s1 with exited := true }
  else
    match s1.fooQueue.enqueue (2, 3) with
    | Except.ok q => { s1 with fooQueue := q }
    | Except.error _ => { s1 with panicked := true }

/-- The init function of examples-spawn.rs: spawn foo with arguments
one and two into the initially empty queue, unwrapping the result. -/
def appInit : AppState :=
  match (ReadyQueue.empty 1 : ReadyQueue (Int × Nat)).enqueue (1, 2) with
  | Except.ok q => ⟨q, [], false, false⟩
  | Except.error _ => ⟨ReadyQueue.empty 1, [], false, true⟩

/-- Modelled from the spec: the Dispatcher Core loop for foo's priority
level (section 4.4), popping and running queued invocations to
completion until the queue is empty, the program exits, or an unwrap
panicked; fuel bounds the number of dispatched invocations. -/
def dispatchLoop : Nat → AppState → AppState
  | 0, s => s
  | n + 1, s =>
    if s.exited || s.panicked then s
    else
      match s.fooQueue.dequeue with
      | none => s
      | some ((x, y), q) => dispatchLoop n (fooBody { s with fooQueue := q } x y)

/-- The complete run of the example program: init followed by the
dispatcher. -/
def runApp : AppState :=
  dispatchLoop 8 appInit

/-- Claim C9: in the example program neither unwrap can panic: init
spawns foo into an empty queue, and foo re-spawns itself only after its
own invocation has been dequeued, so every spawn returns Ok. -/
theorem example_unwraps_succeed :
    appInit.panicked = false ∧ runApp.panicked = false := by
  constructor <;> rfl

/-- Claim C10: the example's chain of self-spawns terminates: foo runs
exactly twice, first with arguments one and two, then with two and
three; the second invocation exits before the trailing spawn, so no
third invocation is ever enqueued and further dispatching changes
nothing. -/
theorem example_runs_twice_then_exits :
    runApp.log = [((1 : Int), (2 : Nat)), ((2 : Int), (3 : Nat))] ∧
    runApp.exited = true ∧
    runApp.fooQueue.entries = [] ∧
    ∀ n : Nat, dispatchLoop n runApp = runApp := by
  refine ⟨rfl, rfl, rfl, ?_⟩
  intro n
  cases n with
  | zero => rfl
  | succ m => rfl

/-- A statically declared task: identity and static priority (spec
section 3, Task Descriptor). -/
structure TaskDecl where
  tid : Nat
  prio : Nat
deriving DecidableEq

/-- Modelled from the spec: the precomputed priority ceiling of a
resource, the maximum static priority among all tasks that ever lock it
(spec section 3, Priority Ceiling); the Resource Lock Manager is not
part of the visible sources. -/
def ceilingOf (accessors : List TaskDecl) : Nat :=
  (accessors.map TaskDecl.prio).foldr max 0

/-- Modelled from the spec: acquiring a ceiling lock pushes a new
running priority, the maximum of the current one and the resource
ceiling, onto the caller's priority stack (spec section 4.3); the head
of the stack is the current running priority. -/
def lockRaise (ceiling : Nat) (ps : List Nat) : List Nat :=
  max (ps.headD 0) ceiling :: ps

/-- Modelled from the spec: releasing the guard restores the caller's
prior priority (spec section 4.3). -/
def unlockRestore (ps : List Nat) : List Nat :=
  ps.tail

/-- Taking further nested ceiling locks while a guard is held. -/
def nestedRaise (cs : List Nat) (ps : List Nat) : List Nat :=
  cs.foldl (fun st c => lockRaise c st) ps

theorem mem_prio_le_ceilingOf :
    ∀ (accessors : List TaskDecl) (t : TaskDecl), t ∈ accessors →
      t.prio ≤ ceilingOf accessors := by
  intro accessors
  induction accessors with
  | nil => intro t ht; exact absurd ht (by simp)
  | cons a l ih =>
    intro t ht
    have hc : ceilingOf (a :: l) = max a.prio (ceilingOf l) := by
      simp [ceilingOf]
    rw [hc]
    rcases List.mem_cons.mp ht with h | h
    · rw [h]; exact Nat.le_max_left _ _
    · exact Nat.le_trans (ih t h) (Nat.le_max_right _ _)

theorem nestedRaise_head_mono :
    ∀ (cs : List Nat) (ps : List Nat),
      ps.headD 0 ≤ (nestedRaise cs ps).headD 0 := by
  intro cs
  induction cs with
  | nil => intro ps; simp [nestedRaise]
  | cons c cs ih =>
    intro ps
    have h1 : nestedRaise (c :: cs) ps = nestedRaise cs (lockRaise c ps) := by
      simp [nestedRaise]
    rw [h1]
    have h2 : ps.headD 0 ≤ (lockRaise c ps).headD 0 := by
      simp [lockRaise]
    exact Nat.le_trans h2 (ih (lockRaise c ps))

/-- Claim C3: locking a resource raises the caller's running priority
exactly to the resource's precomputed ceiling (the maximum static
priority among its accessors), the caller keeps running at least at
that ceiling under any further nested locks taken while the guard is
held, and releasing the guard restores the caller's prior priority
stack. -/
theorem lock_ceiling_protocol (accessors : List TaskDecl)
    (caller : TaskDecl) (ps cs : List Nat)
    (hmem : caller ∈ accessors) (hcur : ps.headD 0 = caller.prio) :
    (lockRaise (ceilingOf accessors) ps).headD 0 = ceilingOf accessors ∧
    ceilingOf accessors ≤
      (nestedRaise cs (lockRaise (ceilingOf accessors) ps)).headD 0 ∧
    unlockRestore (lockRaise (ceilingOf accessors) ps) = ps := by
  have hle : caller.prio ≤ ceilingOf accessors :=
    mem_prio_le_ceilingOf accessors caller hmem
  have hhead : (lockRaise (ceilingOf accessors) ps).headD 0 =
      ceilingOf accessors := by
    unfold lockRaise
    rw [List.headD_cons, hcur]
    exact Nat.max_eq_right hle
  refine ⟨hhead, ?_, rfl⟩
  have := nestedRaise_head_mono cs (lockRaise (ceilingOf accessors) ps)
  rw [hhead] at this
  exact this

/-- Two tasks of the example kind: identities zero and one, static
priorities one and three. -/
def accsDemo : List TaskDecl :=
  [⟨0, 1⟩, ⟨1, 3⟩]

/-- Witness for C3: the lower-priority task locks the shared resource
whose ceiling is three, runs at the ceiling also under one nested lock,
and its prior priority stack is restored on release. -/
theorem lock_ceiling_protocol_witness :
    (lockRaise (ceilingOf accsDemo) [1]).headD 0 = ceilingOf accsDemo ∧
    ceilingOf accsDemo ≤
      (nestedRaise [2] (lockRaise (ceilingOf accsDemo) [1])).headD 0 ∧
    unlockRestore (lockRaise (ceilingOf accsDemo) [1]) = [1] :=
  lock_ceiling_protocol accsDemo ⟨0, 1⟩ [1] [2] (by decide) (by decide)

/-- A task invocation currently being executed: task identity and the
static priority it runs at. -/
structure RunEntry where
  task : Nat
  prio : Nat
deriving DecidableEq

/-- Modelled from the spec: the Dispatcher Core's preemption state
(section 4.4); the stack of in-progress task invocations, the currently
running one at the head.  The Dispatcher Core itself is not part of the
visible sources. -/
structure DispState where
  stack : List RunEntry
deriving DecidableEq

/-- Modelled from the spec: dispatcher transitions (sections 4.4
and 5).  A new invocation starts, preempting the running one, only when
its priority is strictly higher than the running priority; a running
invocation runs to completion and only the currently running one can
finish. -/
inductive DStep : DispState → DispState → Prop where
  | start (e : RunEntry) (s : DispState)
      (h : ∀ f : RunEntry, s.stack.head? = some f → f.prio < e.prio) :
      DStep s ⟨e :: s.stack⟩
  | finish (e : RunEntry) (rest : List RunEntry) :
      DStep ⟨e :: rest⟩ ⟨rest⟩

/-- A finite execution of the dispatcher from one state to another. -/
inductive Trace : DispState → DispState → Type where
  | refl (s : DispState) : Trace s s
  | step (s t u : DispState) (h : DStep s t) (tr : Trace t u) : Trace s u

/-- Holds when, somewhere along the trace, the invocation a finishes
(runs to completion) while exactly the stack below is still below it:
the step from a-running to a-popped occurs. -/
def completesOn (a : RunEntry) (below : List RunEntry) :
    {s u : DispState} → Trace s u → Prop
  | _, _, Trace.refl _ => False
  | _, _, Trace.step s t _ _ tr =>
    (s.stack = a :: below ∧ t.stack = below) ∨ completesOn a below tr

theorem completesOn_of_stack (a b : RunEntry) (l2 l3 : List RunEntry) :
    ∀ (s u : DispState) (tr : Trace s u) (l1 : List RunEntry),
      s.stack = l1 ++ a :: (l2 ++ b :: l3) → u.stack = b :: l3 →
      completesOn a (l2 ++ b :: l3) tr := by
  intro s u tr
  induction tr with
  | refl s =>
    intro l1 hs hu
    rw [hu] at hs
    have := congrArg List.length hs
    simp [List.length_append] at this
    omega
  | step s t u h tr ih =>
    intro l1 hs hu
    show (s.stack = a :: (l2 ++ b :: l3) ∧ t.stack = l2 ++ b :: l3) ∨
      completesOn a (l2 ++ b :: l3) tr
    cases h with
    | start e s0 h0 =>
      right
      exact ih (e :: l1) (by simp [hs]) hu
    | finish e rest =>
      cases l1 with
      | nil =>
        left
        simp only at hs
        constructor
        · exact hs
        · simp only [List.nil_append] at hs
          injection hs with h1 h2
      | cons e' l1' =>
        right
        simp only [List.cons_append] at hs
        injection hs with h1 h2
        exact ih l1' h2 hu

/-- Claim C2: if an invocation a was started above an invocation b on
the preemption stack (which the dispatcher permits only for strictly
higher priority), then in any execution in which control returns to b
(b becomes the running invocation again), a first ran to completion;
moreover a running invocation is only ever preempted by a strictly
higher-priority one. -/
theorem preempting_task_completes_first (s u : DispState) (tr : Trace s u)
    (a b : RunEntry) (l1 l2 l3 : List RunEntry)
    (hs : s.stack = l1 ++ a :: (l2 ++ b :: l3))
    (hu : u.stack = b :: l3) :
    completesOn a (l2 ++ b :: l3) tr ∧
    ∀ v w : DispState, DStep v w → ∀ e : RunEntry,
      w.stack = e :: v.stack → ∀ r : RunEntry,
        v.stack.head? = some r → r.prio < e.prio := by
  constructor
  · exact completesOn_of_stack a b l2 l3 s u tr l1 hs hu
  · intro v w hvw e hw r hr
    cases hvw with
    | start e' v0 h0 =>
      simp only at hw
      have he : e' = e := by
        injection hw with h1 h2
      rw [← he]
      exact h0 r hr
    | finish e' rest =>
      simp only at hw
      have := congrArg List.length hw
      simp at this
      omega

/-- The lower-priority invocation of the C2 witness scenario. -/
def entB : RunEntry := ⟨0, 1⟩

/-- The higher-priority invocation of the C2 witness scenario. -/
def entA : RunEntry := ⟨1, 2⟩

/-- A concrete trace in which the preempting invocation entA finishes,
returning control to entB. -/
def demoTrace : Trace ⟨[entA, entB]⟩ ⟨[entB]⟩ :=
  Trace.step ⟨[entA, entB]⟩ ⟨[entB]⟩ ⟨[entB]⟩
    (DStep.finish entA [entB]) (Trace.refl ⟨[entB]⟩)

/-- Witness for C2: on the concrete trace, entA runs to completion
before control returns to entB. -/
theorem preempting_task_completes_first_witness :
    completesOn entA [entB] demoTrace :=
  (preempting_task_completes_first ⟨[entA, entB]⟩ ⟨[entB]⟩ demoTrace
    entA entB [] [] [] rfl rfl).1

/-- An in-progress task activation together with its lock state: task
identity, current effective priority, and the held resources (resource
identity paired with the priority saved when it was locked), most
recently locked first. -/
structure Frame where
  task : Nat
  prio : Nat
  holds : List (Nat × Nat)
deriving DecidableEq

/-- The preemption stack of task activations, the running one at the
head. -/
structure SysState where
  stack : List Frame
deriving DecidableEq

/-- Modelled from the spec: the combined dispatcher and Resource Lock
Manager semantics (sections 4.3, 4.4 and 5); neither is part of the
visible sources.  A new activation starts only with strictly higher
priority than the running one; the running activation may lock a
resource it is declared to access, raising its effective priority to at
least the resource ceiling; unlocking restores the saved priority; an
activation finishes only with no locks held.  The parameters give each
resource's precomputed ceiling, each task's static priority, and the
static access relation. -/
inductive MStep (ceil sprio : Nat → Nat) (access : Nat → Nat → Bool) :
    SysState → SysState → Prop where
  | start (s : SysState) (t : Nat)
      (h : ∀ f : Frame, s.stack.head? = some f → f.prio < sprio t) :
      MStep ceil sprio access s ⟨⟨t, sprio t, []⟩ :: s.stack⟩
  | lock (t p : Nat) (held : List (Nat × Nat)) (r : Nat) (rest : List Frame)
      (ha : access t r = true) :
      MStep ceil sprio access ⟨⟨t, p, held⟩ :: rest⟩
        ⟨⟨t, max p (ceil r), (r, p) :: held⟩ :: rest⟩
  | unlock (t p r sp : Nat) (held : List (Nat × Nat)) (rest : List Frame) :
      MStep ceil sprio access ⟨⟨t, p, (r, sp) :: held⟩ :: rest⟩
        ⟨⟨t, sp, held⟩ :: rest⟩
  | finish (t p : Nat) (rest : List Frame) :
      MStep ceil sprio access ⟨⟨t, p, []⟩ :: rest⟩ ⟨rest⟩

/-- The states reachable from the idle system. -/
def SysReach (ceil sprio : Nat → Nat) (access : Nat → Nat → Bool) :
    SysState → Prop :=
  Relation.ReflTransGen (MStep ceil sprio access) ⟨[]⟩

/-- The per-frame lock invariant: every held resource's ceiling is
bounded by the effective priority at the moment it was held, saved
priorities decrease inward down to the task's static priority, and
every held resource is in the task's declared access set. -/
def holdsChain (ceil sprio : Nat → Nat) (access : Nat → Nat → Bool)
    (t : Nat) : Nat → List (Nat × Nat) → Prop
  | p, [] => sprio t ≤ p
  | p, (r, sp) :: rest =>
    ceil r ≤ p ∧ sp ≤ p ∧ access t r = true ∧
      holdsChain ceil sprio access t sp rest

/-- The frame invariant. -/
def frameInv (ceil sprio : Nat → Nat) (access : Nat → Nat → Bool)
    (f : Frame) : Prop :=
  holdsChain ceil sprio access f.task f.prio f.holds

/-- The system invariant: every frame satisfies its lock invariant and
every frame's static priority is strictly above the effective priority
of every frame below it. -/
def SysInv (ceil sprio : Nat → Nat) (access : Nat → Nat → Bool)
    (s : SysState) : Prop :=
  (∀ f ∈ s.stack, frameInv ceil sprio access f) ∧
  s.stack.Pairwise (fun f g => g.prio < sprio f.task)

theorem holdsChain_sprio_le (ceil sprio : Nat → Nat)
    (access : Nat → Nat → Bool) (t : Nat) :
    ∀ (held : List (Nat × Nat)) (p : Nat),
      holdsChain ceil sprio access t p held → sprio t ≤ p := by
  intro held
  induction held with
  | nil => intro p h; exact h
  | cons e rest ih =>
    intro p h
    cases e with
    | mk r sp =>
      have h4 := h.2.2.2
      exact Nat.le_trans (ih sp h4) h.2.1

theorem holdsChain_mem (ceil sprio : Nat → Nat)
    (access : Nat → Nat → Bool) (t : Nat) :
    ∀ (held : List (Nat × Nat)) (p r sp : Nat),
      holdsChain ceil sprio access t p held → (r, sp) ∈ held →
      ceil r ≤ p ∧ access t r = true := by
  intro held
  induction held with
  | nil => intro p r sp h hm; exact absurd hm (by simp)
  | cons e rest ih =>
    intro p r sp h hm
    cases e with
    | mk r' sp' =>
      rcases List.mem_cons.mp hm with he | he
      · injection he with h1 h2
        rw [h1]
        exact ⟨h.1, h.2.2.1⟩
      · have := ih sp' r sp h.2.2.2 he
        exact ⟨Nat.le_trans this.1 h.2.1, this.2⟩

theorem sysInv_step (ceil sprio : Nat → Nat) (access : Nat → Nat → Bool)
    (s s' : SysState) (hstep : MStep ceil sprio access s s')
    (hinv : SysInv ceil sprio access s) :
    SysInv ceil sprio access s' := by
  cases hstep with
  | @start _ t h =>
    constructor
    · intro f hf
      rcases List.mem_cons.mp hf with he | he
      · rw [he]
        exact Nat.le_refl _
      · exact hinv.1 f he
    · rw [List.pairwise_cons]
      refine ⟨?_, hinv.2⟩
      intro g hg
      show g.prio < sprio t
      cases hst : s.stack with
      | nil => rw [hst] at hg; exact absurd hg (by simp)
      | cons g0 grest =>
        have hg0 : g0.prio < sprio t := by
          apply h
          rw [hst]
          rfl
        rw [hst] at hg
        rcases List.mem_cons.mp hg with he | he
        · rw [he]; exact hg0
        · have hpw := hinv.2
          rw [hst, List.pairwise_cons] at hpw
          have h1 : g.prio < sprio g0.task := hpw.1 g he
          have h2 : sprio g0.task ≤ g0.prio := by
            apply holdsChain_sprio_le ceil sprio access g0.task g0.holds
            exact hinv.1 g0 (by rw [hst]; exact List.mem_cons_self _ _)
          omega
  | lock t p held r rest ha =>
    have hf0 : frameInv ceil sprio access ⟨t, p, held⟩ :=
      hinv.1 _ (List.mem_cons_self _ _)
    constructor
    · intro f hf
      rcases List.mem_cons.mp hf with he | he
      · rw [he]
        exact ⟨Nat.le_max_right _ _, Nat.le_max_left _ _, ha, hf0⟩
      · exact hinv.1 f (List.mem_cons_of_mem _ he)
    · have hpw := hinv.2
      rw [List.pairwise_cons] at hpw ⊢
      exact ⟨fun g hg => hpw.1 g hg, hpw.2⟩
  | unlock t p r sp held rest =>
    have hf0 : frameInv ceil sprio access ⟨t, p, (r, sp) :: held⟩ :=
      hinv.1 _ (List.mem_cons_self _ _)
    constructor
    · intro f hf
      rcases List.mem_cons.mp hf with he | he
      · rw [he]
        exact hf0.2.2.2
      · exact hinv.1 f (List.mem_cons_of_mem _ he)
    · have hpw := hinv.2
      rw [List.pairwise_cons] at hpw ⊢
      exact ⟨fun g hg => hpw.1 g hg, hpw.2⟩
  | finish t p rest =>
    constructor
    · intro f hf
      exact hinv.1 f (List.mem_cons_of_mem _ hf)
    · exact (List.pairwise_cons.mp hinv.2).2

theorem sysInv_of_reach (ceil sprio : Nat → Nat)
    (access : Nat → Nat → Bool) (s : SysState)
    (h : SysReach ceil sprio access s) :
    SysInv ceil sprio access s := by
  induction h with
  | refl => exact ⟨by simp, List.Pairwise.nil⟩
  | tail hab hbc ih => exact sysInv_step ceil sprio access _ _ hbc ih

theorem pairwise_split (R : Frame → Frame → Prop) :
    ∀ (l1 : List Frame) (f : Frame) (l2 : List Frame) (g : Frame)
      (l3 : List Frame),
      List.Pairwise R (l1 ++ f :: (l2 ++ g :: l3)) → R f g := by
  intro l1
  induction l1 with
  | nil =>
    intro f l2 g l3 h
    simp only [List.nil_append] at h
    rw [List.pairwise_cons] at h
    exact h.1 g (by simp)
  | cons a l1 ih =>
    intro f l2 g l3 h
    rw [List.cons_append, List.pairwise_cons] at h
    exact ih f l2 g l3 h.2

/-- Claim C4: in any reachable state, no two task activations hold
overlapping critical sections on the same resource; with every ceiling
at least the static priority of every declared accessor, the sets of
resources held by any two distinct activations on the stack are
disjoint (at most one mutable borrow is active at a time). -/
theorem resource_mutual_exclusion (ceil sprio : Nat → Nat)
    (access : Nat → Nat → Bool)
    (hceil : ∀ t r, access t r = true → sprio t ≤ ceil r)
    (s : SysState) (hs : SysReach ceil sprio access s)
    (l1 l2 l3 : List Frame) (f g : Frame)
    (hstack : s.stack = l1 ++ f :: (l2 ++ g :: l3)) :
    (f.holds.map Prod.fst).inter (g.holds.map Prod.fst) = [] := by
  have hinv := sysInv_of_reach ceil sprio access s hs
  have hfmem : f ∈ s.stack := by rw [hstack]; simp
  have hgmem : g ∈ s.stack := by rw [hstack]; simp
  have hfinv := hinv.1 f hfmem
  have hginv := hinv.1 g hgmem
  have hrel : g.prio < sprio f.task := by
    apply pairwise_split _ l1 f l2 g l3
    rw [← hstack]
    exact hinv.2
  rw [List.eq_nil_iff_forall_not_mem]
  intro x hx
  have hx2 := List.mem_inter_iff.mp hx
  obtain ⟨hxf, hxg⟩ := hx2
  rw [List.mem_map] at hxf hxg
  obtain ⟨a, hmf, hef⟩ := hxf
  obtain ⟨b, hmg, heg⟩ := hxg
  have hmf2 : (a.1, a.2) ∈ f.holds := hmf
  have hmg2 : (b.1, b.2) ∈ g.holds := hmg
  have h1 := holdsChain_mem ceil sprio access f.task f.holds f.prio a.1 a.2
    hfinv hmf2
  have h2 := holdsChain_mem ceil sprio access g.task g.holds g.prio b.1 b.2
    hginv hmg2
  rw [hef] at h1
  rw [heg] at h2
  have h3 : sprio f.task ≤ ceil x := hceil f.task x h1.2
  have h4 : ceil x ≤ g.prio := h2.1
  omega

/-- Concrete static priorities for the C4 witness scenario: task t has
static priority t plus one. -/
def sprC (t : Nat) : Nat := t + 1

/-- Concrete resource ceilings for the C4 witness scenario: resource r
has ceiling r plus one. -/
def ceilC (r : Nat) : Nat := r + 1

/-- Concrete access relation for the C4 witness scenario: task t may
lock resource t, for the two declared tasks. -/
def accessC (t r : Nat) : Bool := t == r && decide (t < 2)

theorem accessC_ceiling_sound :
    ∀ t r : Nat, accessC t r = true → sprC t ≤ ceilC r := by
  intro t r h
  unfold accessC at h
  rw [Bool.and_eq_true, beq_iff_eq, decide_eq_true_eq] at h
  rw [h.1]
  exact Nat.le_refl _

/-- A reachable state of the C4 witness scenario: task zero locked
resource zero, then task one preempted it and locked resource one. -/
def sysDemo : SysState :=
  ⟨[⟨1, 2, [(1, 2)]⟩, ⟨0, 1, [(0, 1)]⟩]⟩

theorem sysDemo_reachable : SysReach ceilC sprC accessC sysDemo := by
  apply Relation.ReflTransGen.tail
  apply Relation.ReflTransGen.tail
  apply Relation.ReflTransGen.tail
  apply Relation.ReflTransGen.tail
  exact Relation.ReflTransGen.refl
  · exact MStep.start ⟨[]⟩ 0 (fun f hf => Option.noConfusion hf)
  · exact MStep.lock 0 1 [] 0 [] rfl
  · apply MStep.start ⟨[⟨0, 1, [(0, 1)]⟩]⟩ 1
    intro f hf
    rw [List.head?_cons, Option.some.injEq] at hf
    rw [← hf]
    decide
  · exact MStep.lock 1 2 [] 1 [⟨0, 1, [(0, 1)]⟩] rfl

/-- Witness for C4: in the reachable two-activation state, the held
resource sets of the two activations are disjoint. -/
theorem resource_mutual_exclusion_witness :
    (([((1 : Nat), (2 : Nat))]).map Prod.fst).inter
      (([((0 : Nat), (1 : Nat))]).map Prod.fst) = [] :=
  resource_mutual_exclusion ceilC sprC accessC accessC_ceiling_sound
    sysDemo sysDemo_reachable [] [] [] ⟨1, 2, [(1, 2)]⟩ ⟨0, 1, [(0, 1)]⟩ rfl

/-- A scheduled spawn: target task, captured argument, and target
timestamp (spec section 4.5). -/
structure Sched where
  task : Nat
  args : Nat
  target : Nat
deriving DecidableEq

/-- A fired scheduled spawn, recording the timestamp at which the Clock
Service dispatched it. -/
structure FiredRec where
  entry : Sched
  time : Nat
deriving DecidableEq

/-- The Clock Service state: current timestamp, pending scheduled
spawns, and the record of fired ones. -/
structure ClockState where
  now : Nat
  scheduled : List Sched
  fired : List FiredRec
deriving DecidableEq

/-- Modelled from the spec: the Monotonic Clock Service (section 4.5);
it is not part of the visible sources.  Time advances monotonically,
schedule-at registers a scheduled spawn, and a pending entry fires only
once the current time has reached its target timestamp. -/
inductive CStep : ClockState → ClockState → Prop where
  | tick (s : ClockState) (d : Nat) :
      CStep s ⟨s.now + d, s.scheduled, s.fired⟩
  | schedule (s : ClockState) (e : Sched) :
      CStep s ⟨s.now, e :: s.scheduled, s.fired⟩
  | fire (s : ClockState) (e : Sched) (he : e ∈ s.scheduled)
      (ht : e.target ≤ s.now) :
      CStep s ⟨s.now, s.scheduled.erase e, ⟨e, s.now⟩ :: s.fired⟩

/-- The Clock Service states reachable from time zero with nothing
scheduled. -/
def ClockReach : ClockState → Prop :=
  Relation.ReflTransGen CStep ⟨0, [], []⟩

theorem clock_fired_ok (s : ClockState) (h : ClockReach s) :
    ∀ f ∈ s.fired, f.entry.target ≤ f.time := by
  induction h with
  | refl => intro f hf; exact absurd hf (by simp)
  | tail hab hbc ih =>
    cases hbc with
    | tick d => exact ih
    | schedule e => exact ih
    | fire e he ht =>
      intro f hf
      rcases List.mem_cons.mp hf with hfe | hfe
      · rw [hfe]; exact ht
      · exact ih f hfe

theorem cstep_now_mono (u v : ClockState) (h : CStep u v) : u.now ≤ v.now := by
  cases h with
  | tick d => exact Nat.le_add_right _ _
  | schedule e => exact Nat.le_refl _
  | fire e he ht => exact Nat.le_refl _

/-- Claim C8: a scheduled spawn never fires before its target
timestamp: in every reachable Clock Service state each fired record's
dispatch time is at least its target, and the current time is
monotonically non-decreasing along every step. -/
theorem no_early_firing (s : ClockState) (h : ClockReach s)
    (f : FiredRec) (hf : f ∈ s.fired) :
    f.entry.target ≤ f.time ∧
    ∀ u v : ClockState, CStep u v → u.now ≤ v.now :=
  ⟨clock_fired_ok s h f hf, cstep_now_mono⟩

/-- The scheduled spawn of the C8 witness scenario: fires at timestamp
five. -/
def schedDemo : Sched := ⟨0, 0, 5⟩

/-- The C8 witness state: the demo entry was scheduled, time advanced
to five, and the entry fired at five. -/
def clockDemo : ClockState := ⟨5, [], [⟨schedDemo, 5⟩]⟩

theorem clockDemo_reachable : ClockReach clockDemo := by
  apply Relation.ReflTransGen.tail
  apply Relation.ReflTransGen.tail
  apply Relation.ReflTransGen.tail
  exact Relation.ReflTransGen.refl
  · exact CStep.schedule ⟨0, [], []⟩ schedDemo
  · exact CStep.tick ⟨0, [schedDemo], []⟩ 5
  · exact CStep.fire ⟨5, [schedDemo], []⟩ schedDemo (List.Mem.head [])
      (by decide)

/-- Witness for C8: the fired demo entry was dispatched at its target
timestamp, not before. -/
theorem no_early_firing_witness :
    schedDemo.target ≤ (5 : Nat) :=
  (no_early_firing clockDemo clockDemo_reachable ⟨schedDemo, 5⟩
    (List.Mem.head [])).1
